import Mathlib

/-!
Shallow embedding of the ephemeral file registry and transfer-code exchange
of `modules/file_manager.py` (class `FileManager`).

Modelling conventions:
* Time is `Nat` seconds; `datetime.now()` is passed in explicitly as `now`.
* Python dicts (`file_registry`, `transfer_codes`) are association lists
  `List (String × _)`; dict keys are unique in Python, so `del d[k]` is
  modelled as removing every pair with that key.
* The file system (`os.path.exists`, `open`, `os.remove`, `os.path.getmtime`)
  is an association list from path to `DiskFile` (content bytes and mtime).
* `os.remove` can raise; the caught-exception paths are modelled by a
  parameter `removeFails : String → Bool` saying which paths fail to delete.
* `random.randint(1000, 9999)` draws are passed in as a list `draws`; the
  unbounded `while True` retry loop of `create_transfer_code` is modelled by
  consuming `draws` until a free code appears, returning `none` if the given
  finite draw sequence is exhausted with the loop still running.
* `uuid.uuid4()` results are passed in as an explicit `file_id` string.
-/

structure DiskFile where
  content : List Nat
  mtime : Nat
deriving DecidableEq

structure StoredFile where
  path : String
  original_name : String
  created_at : Nat
  expires_at : Nat
  size : Nat
deriving DecidableEq

structure TransferRecord where
  file_path : String
  original_name : String
  created_at : Nat
  expires_at : Nat
  size : Nat
  downloaded : Bool
deriving DecidableEq

structure UploadedFile where
  name : String
  content : List Nat
deriving DecidableEq

structure FMState where
  file_registry : List (String × StoredFile)
  transfer_codes : List (String × TransferRecord)
  disk : List (String × DiskFile)
deriving DecidableEq

/-- Dict lookup `d.get(k)`: value of the first pair whose key is `k`. -/
def lookupKey {α : Type} (k : String) : List (String × α) → Option α
  | [] => none
  | p :: ps => if p.1 = k then some p.2 else lookupKey k ps

/-- Dict deletion `del d[k]`: drop every pair with key `k` (keys are unique
in a Python dict, so at most one pair is dropped on dict-faithful states). -/
def eraseKey {α : Type} (k : String) (l : List (String × α)) : List (String × α) :=
  l.filter (fun p => p.1 ≠ k)

/-- Dict assignment `d[k] = v`: replace in place when the key is present,
append otherwise (Python dicts keep insertion order). -/
def insertKey {α : Type} (k : String) (v : α) (l : List (String × α)) : List (String × α) :=
  if (lookupKey k l).isSome then l.map (fun p => if p.1 = k then (k, v) else p)
  else l ++ [(k, v)]

/-- `self.expiration_minutes = 30` from `FileManager.__init__`. -/
def expiration_minutes : Nat := 30

/-- `self.app_temp_dir = os.path.join(tempfile.gettempdir(), "pdf_processor")`. -/
def app_temp_dir : String := "/tmp/pdf_processor"

/-- Extension part of `os.path.splitext(name)`: the suffix from the last dot,
empty when there is no dot or every character before the last dot is a dot
(CPython's leading-dot rule for names like `.bashrc`). -/
def splitext_ext (name : String) : String :=
  let cs := name.data
  let afterDot := cs.reverse.takeWhile (fun c => c ≠ '.')
  if afterDot.length = cs.length then ""
  else if (cs.take (cs.length - afterDot.length - 1)).all (fun c => c = '.') then ""
  else String.mk ('.' :: afterDot.reverse)

/-- A fresh `FileManager()`: both dicts empty; the temp directory may hold
leftover files from an earlier process, so the disk is a parameter. -/
def initFM (disk : List (String × DiskFile)) : FMState :=
  { file_registry := [], transfer_codes := [], disk := disk }

def initState : FMState := initFM []

/-- The `while True` code-generation loop of `create_transfer_code`: take
draws until one whose decimal string is not a key of `transfer_codes`
appears; `none` means the given draw sequence was exhausted with the loop
still spinning (the source has no other exit). -/
def genCode (codes : List (String × TransferRecord)) : List Nat → Option String
  | [] => none
  | d :: ds =>
    if (lookupKey (toString d) codes).isSome then genCode codes ds
    else some (toString d)

/-- `FileManager.create_transfer_code(uploaded_file)`: generate a code via
the retry loop, write the bytes to `transfer_<uuid><ext>` in the temp dir,
and store a record expiring 24 hours from now. Returns `none` when the
retry loop does not terminate within the supplied draws. -/
def create_transfer_code (s : FMState) (now : Nat) (draws : List Nat)
    (uploaded_file : UploadedFile) (file_id : String) : Option (String × FMState) :=
  match genCode s.transfer_codes draws with
  | none => none
  | some code =>
    let temp_path := app_temp_dir ++ "/transfer_" ++ file_id ++ splitext_ext uploaded_file.name
    some (code,
      { s with
        disk := insertKey temp_path ⟨uploaded_file.content, now⟩ s.disk,
        transfer_codes := insertKey code
          { file_path := temp_path
            original_name := uploaded_file.name
            created_at := now
            expires_at := now + 24 * 60 * 60
            size := uploaded_file.content.length
            downloaded := false } s.transfer_codes })

/-- `FileManager.get_file_by_code(code)`: `return self.transfer_codes.get(code)`.
The state component records that the method leaves the manager unchanged. -/
def get_file_by_code (s : FMState) (code : String) : Option TransferRecord × FMState :=
  (lookupKey code s.transfer_codes, s)

/-- `FileManager.download_by_code(code)`: if the code is unknown, expired
(`now > expires_at`), or the file is gone from disk, return `None`;
otherwise read the bytes, set `downloaded = True`, and return
`(file_data, original_name)`. -/
def download_by_code (s : FMState) (now : Nat) (code : String) :
    Option (List Nat × String) × FMState :=
  match lookupKey code s.transfer_codes with
  | some file_info =>
    if now > file_info.expires_at then (none, s)
    else
      match lookupKey file_info.file_path s.disk with
      | none => (none, s)
      | some df =>
        (some (df.content, file_info.original_name),
          { s with transfer_codes :=
              insertKey code { file_info with downloaded := true } s.transfer_codes })
  | none => (none, s)

/-- `FileManager.get_file_info(file_id)`: `return self.file_registry.get(file_id)`. -/
def get_file_info (s : FMState) (file_id : String) : Option StoredFile :=
  lookupKey file_id s.file_registry

/-- `if os.path.exists(path): os.remove(path)` under `try/except pass`:
the disk entry is dropped when present and deletion does not fail. -/
def removeDisk (removeFails : String → Bool) (disk : List (String × DiskFile))
    (path : String) : List (String × DiskFile) :=
  if (lookupKey path disk).isSome && !(removeFails path) then eraseKey path disk else disk

/-- Body of the per-file loop in `cleanup_expired_files`: look the id up,
best-effort delete the bytes, then `del self.file_registry[file_id]`. -/
def cleanupStep (removeFails : String → Bool) (st : FMState) (file_id : String) : FMState :=
  match lookupKey file_id st.file_registry with
  | some file_info =>
    { st with
      disk := removeDisk removeFails st.disk file_info.path,
      file_registry := eraseKey file_id st.file_registry }
  | none => st

/-- `FileManager._cleanup_orphaned_files()`: every temp-dir file whose path
is not registered in `file_registry` and whose age exceeds
`expiration_minutes * 60` seconds is removed (kept on a per-file exception). -/
def _cleanup_orphaned_files (s : FMState) (now : Nat) (removeFails : String → Bool) : FMState :=
  let registered_paths := s.file_registry.map (fun p => p.2.path)
  { s with disk := s.disk.filter (fun pf =>
      decide (pf.1 ∈ registered_paths)
      || !(decide (now - pf.2.mtime > expiration_minutes * 60))
      || removeFails pf.1) }

/-- `FileManager.cleanup_expired_files()`: collect the ids with
`now > expires_at`, delete each (bytes best-effort, then metadata), then run
the orphaned-file pass. The Python method returns `None`; only the state is
produced. `transfer_codes` is never touched. -/
def cleanup_expired_files (s : FMState) (now : Nat) (removeFails : String → Bool) : FMState :=
  let expired := (s.file_registry.filter (fun p => decide (now > p.2.expires_at))).map Prod.fst
  _cleanup_orphaned_files (expired.foldl (cleanupStep removeFails) s) now removeFails

/-- `FileManager.delete_file(file_id)`: when present, try to remove the
bytes — an `os.remove` exception is caught by the outer handler and returns
`False` before `del self.file_registry[file_id]` runs — otherwise remove
metadata (and bytes) and return `True`; absent ids return `False`. -/
def delete_file (s : FMState) (removeFails : String → Bool) (file_id : String) :
    Bool × FMState :=
  match lookupKey file_id s.file_registry with
  | some file_info =>
    if (lookupKey file_info.path s.disk).isSome then
      if removeFails file_info.path then (false, s)
      else (true,
        { s with
          file_registry := eraseKey file_id s.file_registry,
          disk := eraseKey file_info.path s.disk })
    else (true, { s with file_registry := eraseKey file_id s.file_registry })
  | none => (false, s)

/-- States reachable from a fresh `FileManager()` by the mutating operations.
The draw lists fed to `create_transfer_code` satisfy the `random.randint(1000,
9999)` bounds. -/
inductive Reachable : FMState → Prop where
  | init (disk : List (String × DiskFile)) : Reachable (initFM disk)
  | create {s s2 : FMState} {now : Nat} {draws : List Nat} {f : UploadedFile}
      {fid code : String} (hs : Reachable s)
      (hdraws : ∀ d ∈ draws, 1000 ≤ d ∧ d ≤ 9999)
      (hc : create_transfer_code s now draws f fid = some (code, s2)) : Reachable s2
  | download {s : FMState} (now : Nat) (code : String) (hs : Reachable s) :
      Reachable (download_by_code s now code).2
  | cleanup {s : FMState} (now : Nat) (rf : String → Bool) (hs : Reachable s) :
      Reachable (cleanup_expired_files s now rf)
  | delete {s : FMState} (rf : String → Bool) (fid : String) (hs : Reachable s) :
      Reachable (delete_file s rf fid).2

/-- Invariant of the active-code map: keys are pairwise distinct and every
key is the decimal string of a draw in the `randint(1000, 9999)` range. -/
def codesInv (codes : List (String × TransferRecord)) : Prop :=
  (codes.map Prod.fst).Nodup ∧
    ∀ c ∈ codes.map Prod.fst, ∃ d, 1000 ≤ d ∧ d ≤ 9999 ∧ c = toString d

/-- The decimal strings of the 9000 values `random.randint(1000, 9999)` can
produce: the entire code space the source can ever issue. -/
def codeStrings : List String := (List.range' 1000 9000).map toString

/-! Concrete states used by counterexamples and witnesses. -/

def dummyRecord : TransferRecord :=
  { file_path := "", original_name := "", created_at := 0, expires_at := 0,
    size := 0, downloaded := false }

/-- A state in which every code `randint(1000, 9999)` can produce is active. -/
def fullCodes : List (String × TransferRecord) :=
  (List.range' 1000 9000).map (fun d => (toString d, dummyRecord))

def fullState : FMState :=
  { file_registry := [], transfer_codes := fullCodes, disk := [] }

def c2File : UploadedFile := { name := "a.pdf", content := [1, 2, 3] }

def c2Path : String := "/tmp/pdf_processor/transfer_f1.pdf"

def c2Record : TransferRecord :=
  { file_path := c2Path, original_name := "a.pdf", created_at := 0,
    expires_at := 86400, size := 3, downloaded := false }

def c2State : FMState :=
  { file_registry := [], transfer_codes := [("1234", c2Record)],
    disk := [(c2Path, { content := [1, 2, 3], mtime := 0 })] }

def c3Record : StoredFile :=
  { path := "/tmp/pdf_processor/aaa.pdf", original_name := "r.pdf",
    created_at := 0, expires_at := 10, size := 1 }

def c3State : FMState :=
  { file_registry := [("f1", c3Record)], transfer_codes := [],
    disk := [("/tmp/pdf_processor/aaa.pdf", { content := [7], mtime := 0 })] }

def c4Record : TransferRecord :=
  { file_path := "/tmp/pdf_processor/transfer_g.pdf", original_name := "g.pdf",
    created_at := 0, expires_at := 100, size := 2, downloaded := false }

def c4State : FMState :=
  { file_registry := [], transfer_codes := [("1234", c4Record)],
    disk := [("/tmp/pdf_processor/transfer_g.pdf", { content := [9, 9], mtime := 0 })] }

def c5Record : StoredFile :=
  { path := "/tmp/pdf_processor/bbb.pdf", original_name := "b.pdf",
    created_at := 0, expires_at := 100, size := 1 }

def c5State : FMState :=
  { file_registry := [("f1", c5Record)], transfer_codes := [],
    disk := [("/tmp/pdf_processor/bbb.pdf", { content := [5], mtime := 0 })] }

def c8Record : StoredFile :=
  { path := "/tmp/pdf_processor/ccc.pdf", original_name := "c.pdf",
    created_at := 0, expires_at := 50, size := 1 }

def c8State : FMState :=
  { file_registry := [("f1", c8Record)], transfer_codes := [],
    disk := [("/tmp/pdf_processor/ccc.pdf", { content := [3], mtime := 0 })] }

/-! Association-list lemmas. -/

theorem lookupKey_eq_none {α : Type} (k : String) :
    ∀ (l : List (String × α)), lookupKey k l = none ↔ k ∉ l.map Prod.fst
  | [] => by simp [lookupKey]
  | p :: ps => by
    simp only [lookupKey, List.map_cons, List.mem_cons]
    by_cases h : p.1 = k
    · simp [h]
    · rw [if_neg h, lookupKey_eq_none k ps]
      constructor
      · intro hn hc
        rcases hc with hc | hc
        · exact h hc.symm
        · exact hn hc
      · intro hn hc
        exact hn (Or.inr hc)

theorem mem_of_lookupKey_some {α : Type} {k : String} {v : α} :
    ∀ {l : List (String × α)}, lookupKey k l = some v → (k, v) ∈ l
  | [], h => by simp [lookupKey] at h
  | p :: ps, h => by
    by_cases hp : p.1 = k
    · rw [lookupKey, if_pos hp] at h
      obtain rfl : p.2 = v := Option.some.inj h
      exact List.mem_cons.2 (Or.inl (by rw [← hp]))
    · rw [lookupKey, if_neg hp] at h
      exact List.mem_cons.2 (Or.inr (mem_of_lookupKey_some h))

theorem isSome_lookupKey {α : Type} (k : String) (l : List (String × α)) :
    (lookupKey k l).isSome ↔ k ∈ l.map Prod.fst := by
  constructor
  · intro h
    cases hl : lookupKey k l with
    | none => rw [hl] at h; simp at h
    | some v => exact List.mem_map.2 ⟨(k, v), mem_of_lookupKey_some hl, rfl⟩
  · intro h
    cases hl : lookupKey k l with
    | none => exact absurd h ((lookupKey_eq_none k l).1 hl)
    | some v => simp

theorem lookupKey_of_mem_nodup {α : Type} {k : String} {v : α} :
    ∀ {l : List (String × α)}, (l.map Prod.fst).Nodup → (k, v) ∈ l →
      lookupKey k l = some v
  | [], _, hm => by simp at hm
  | p :: ps, hnd, hm => by
    rw [List.map_cons, List.nodup_cons] at hnd
    rcases List.mem_cons.1 hm with hm | hm
    · rw [← hm, lookupKey, if_pos rfl]
    · have hk : k ∈ ps.map Prod.fst := List.mem_map.2 ⟨(k, v), hm, rfl⟩
      have hp : p.1 ≠ k := fun h => hnd.1 (by rw [h]; exact hk)
      rw [lookupKey, if_neg hp]
      exact lookupKey_of_mem_nodup hnd.2 hm

theorem lookupKey_eraseKey {α : Type} (k j : String) :
    ∀ (l : List (String × α)),
      lookupKey k (eraseKey j l) = if k = j then none else lookupKey k l
  | [] => by simp [lookupKey, eraseKey]
  | p :: ps => by
    simp only [eraseKey, List.filter_cons]
    by_cases hpj : p.1 = j
    · rw [if_neg (by simp [hpj])]
      by_cases hkj : k = j
      · rw [if_pos hkj]
        have := lookupKey_eraseKey k j ps
        rw [eraseKey] at this
        rw [this, if_pos hkj]
      · rw [if_neg hkj, lookupKey, if_neg (by rw [hpj]; exact fun h => hkj h.symm)]
        have := lookupKey_eraseKey k j ps
        rw [eraseKey] at this
        rw [this, if_neg hkj]
    · rw [if_pos (by simp [hpj])]
      by_cases hpk : p.1 = k
      · rw [lookupKey, if_pos hpk, if_neg (fun h => hpj (by rw [hpk, h])), lookupKey, if_pos hpk]
      · rw [lookupKey, if_neg hpk]
        have := lookupKey_eraseKey k j ps
        rw [eraseKey] at this
        rw [this]
        by_cases hkj : k = j
        · rw [if_pos hkj, if_pos hkj]
        · rw [if_neg hkj, if_neg hkj, lookupKey, if_neg hpk]

theorem eraseKey_of_lookup_none {α : Type} {k : String} :
    ∀ {l : List (String × α)}, lookupKey k l = none → eraseKey k l = l
  | [], _ => rfl
  | p :: ps, h => by
    by_cases hp : p.1 = k
    · rw [lookupKey, if_pos hp] at h
      exact absurd h (by simp)
    · rw [lookupKey, if_neg hp] at h
      have ih := eraseKey_of_lookup_none (l := ps) h
      simp only [eraseKey] at ih ⊢
      rw [List.filter_cons, if_pos (by simp [hp]), ih]

theorem keys_insertKey_present {α : Type} {k : String} {v : α} {l : List (String × α)}
    (h : (lookupKey k l).isSome) :
    (insertKey k v l).map Prod.fst = l.map Prod.fst := by
  rw [insertKey, if_pos h, List.map_map]
  refine List.map_congr_left (fun p _ => ?_)
  by_cases hp : p.1 = k
  · simp [hp]
  · simp [hp]

theorem keys_insertKey_absent {α : Type} {k : String} {v : α} {l : List (String × α)}
    (h : lookupKey k l = none) :
    (insertKey k v l).map Prod.fst = l.map Prod.fst ++ [k] := by
  rw [insertKey, if_neg (by rw [h]; simp), List.map_append, List.map_cons, List.map_nil]

/-! Characterising `cleanup_expired_files`. -/

theorem orphan_pass_registry (s : FMState) (now : Nat) (rf : String → Bool) :
    (_cleanup_orphaned_files s now rf).file_registry = s.file_registry := rfl

theorem orphan_pass_codes (s : FMState) (now : Nat) (rf : String → Bool) :
    (_cleanup_orphaned_files s now rf).transfer_codes = s.transfer_codes := rfl

theorem cleanupStep_codes (rf : String → Bool) (st : FMState) (fid : String) :
    (cleanupStep rf st fid).transfer_codes = st.transfer_codes := by
  rw [cleanupStep]
  cases lookupKey fid st.file_registry <;> rfl

theorem foldl_cleanupStep_codes (rf : String → Bool) :
    ∀ (ids : List String) (s : FMState),
      (ids.foldl (cleanupStep rf) s).transfer_codes = s.transfer_codes
  | [], s => rfl
  | i :: ids, s => by
    rw [List.foldl_cons, foldl_cleanupStep_codes rf ids, cleanupStep_codes]

theorem foldl_cleanupStep_registry (rf : String → Bool) :
    ∀ (ids : List String) (s : FMState),
      (ids.foldl (cleanupStep rf) s).file_registry
        = ids.foldl (fun r i => eraseKey i r) s.file_registry
  | [], s => rfl
  | i :: ids, s => by
    rw [List.foldl_cons, List.foldl_cons, foldl_cleanupStep_registry rf ids]
    rcases hl : lookupKey i s.file_registry with _ | v
    · rw [cleanupStep, hl, eraseKey_of_lookup_none hl]
    · rw [cleanupStep, hl]

theorem lookupKey_foldl_eraseKey {α : Type} (k : String) :
    ∀ (ids : List String) (l : List (String × α)),
      lookupKey k (ids.foldl (fun r i => eraseKey i r) l)
        = if k ∈ ids then none else lookupKey k l
  | [], l => by simp
  | i :: ids, l => by
    rw [List.foldl_cons, lookupKey_foldl_eraseKey k ids (eraseKey i l), lookupKey_eraseKey]
    by_cases hki : k = i
    · by_cases hm : k ∈ ids <;> simp [hki, hm]
    · by_cases hm : k ∈ ids <;> simp [hki, hm]

theorem mem_map_fst_filter_nodup {α : Type} {k : String} {v : α} {l : List (String × α)}
    (p : String × α → Bool) (hnd : (l.map Prod.fst).Nodup)
    (h : lookupKey k l = some v) :
    k ∈ (l.filter p).map Prod.fst ↔ p (k, v) = true := by
  constructor
  · intro hk
    obtain ⟨⟨q1, q2⟩, hq, hqk⟩ := List.mem_map.1 hk
    have hqk2 : q1 = k := hqk
    have hq2 := List.mem_filter.1 hq
    have hv : lookupKey q1 l = some q2 := lookupKey_of_mem_nodup hnd hq2.1
    rw [hqk2, h] at hv
    have hveq : v = q2 := Option.some.inj hv
    rw [show (k, v) = (q1, q2) from by rw [hqk2, hveq]]
    exact hq2.2
  · intro hp
    exact List.mem_map.2 ⟨(k, v), List.mem_filter.2 ⟨mem_of_lookupKey_some h, hp⟩, rfl⟩

theorem cleanup_expired_registry (s : FMState) (now : Nat) (rf : String → Bool) :
    (cleanup_expired_files s now rf).file_registry
      = ((s.file_registry.filter (fun p => decide (now > p.2.expires_at))).map Prod.fst).foldl
          (fun r i => eraseKey i r) s.file_registry := by
  rw [cleanup_expired_files, orphan_pass_registry, foldl_cleanupStep_registry]

theorem get_file_info_cleanup {s : FMState} {now : Nat} {rf : String → Bool}
    {fid : String} {r : StoredFile}
    (hnd : (s.file_registry.map Prod.fst).Nodup)
    (hr : lookupKey fid s.file_registry = some r) :
    get_file_info (cleanup_expired_files s now rf) fid
      = if now > r.expires_at then none else some r := by
  rw [get_file_info, cleanup_expired_registry, lookupKey_foldl_eraseKey, hr]
  simp only [mem_map_fst_filter_nodup (fun p => decide (now > p.2.expires_at)) hnd hr,
    decide_eq_true_eq]

/-! Reachable states of the exchange and the active-code invariant. -/

/-- A successful pass of the retry loop yields a code that is free in the
current map and is the decimal string of one of the draws. -/
theorem genCode_some {codes : List (String × TransferRecord)} :
    ∀ {draws : List Nat} {c : String}, genCode codes draws = some c →
      lookupKey c codes = none ∧ ∃ d ∈ draws, c = toString d
  | [], c, h => by simp [genCode] at h
  | d :: ds, c, h => by
    rw [genCode] at h
    by_cases hd : (lookupKey (toString d) codes).isSome
    · rw [if_pos hd] at h
      obtain ⟨hn, e, he, hc⟩ := genCode_some h
      exact ⟨hn, e, List.mem_cons.2 (Or.inr he), hc⟩
    · rw [if_neg hd] at h
      have hc : toString d = c := Option.some.inj h
      rw [← hc]
      exact ⟨Option.not_isSome_iff_eq_none.1 hd, d, List.mem_cons.2 (Or.inl rfl), rfl⟩

theorem codesInv_insert_fresh {codes : List (String × TransferRecord)}
    {c : String} {r : TransferRecord} (h : codesInv codes)
    (hfresh : lookupKey c codes = none)
    (hc : ∃ d, 1000 ≤ d ∧ d ≤ 9999 ∧ c = toString d) :
    codesInv (insertKey c r codes) := by
  obtain ⟨hnd, hall⟩ := h
  have hmem : c ∉ codes.map Prod.fst := (lookupKey_eq_none c codes).1 hfresh
  constructor
  · rw [keys_insertKey_absent hfresh, List.nodup_append]
    refine ⟨hnd, List.nodup_singleton c, ?_⟩
    intro x hx hx2
    rw [List.mem_singleton] at hx2
    exact hmem (by rw [← hx2]; exact hx)
  · intro x hx
    rw [keys_insertKey_absent hfresh, List.mem_append] at hx
    rcases hx with hx | hx
    · exact hall x hx
    · rw [List.mem_singleton.1 hx]
      exact hc

theorem codesInv_insert_present {codes : List (String × TransferRecord)}
    {c : String} {r : TransferRecord} (h : codesInv codes)
    (hp : (lookupKey c codes).isSome) :
    codesInv (insertKey c r codes) := by
  unfold codesInv at *
  rw [keys_insertKey_present hp]
  exact h

theorem create_codes_shape {s : FMState} {now : Nat} {draws : List Nat}
    {f : UploadedFile} {fid code : String} {s2 : FMState}
    (h : create_transfer_code s now draws f fid = some (code, s2)) :
    genCode s.transfer_codes draws = some code ∧
      ∃ tr : TransferRecord, s2.transfer_codes = insertKey code tr s.transfer_codes := by
  rcases hg : genCode s.transfer_codes draws with _ | c
  · simp [create_transfer_code, hg] at h
  · simp only [create_transfer_code, hg, Option.some.injEq, Prod.mk.injEq] at h
    obtain ⟨rfl, rfl⟩ := h
    exact ⟨rfl, _, rfl⟩

theorem download_codes_shape (s : FMState) (now : Nat) (code : String) :
    (download_by_code s now code).2.transfer_codes = s.transfer_codes ∨
      ∃ r : TransferRecord, (lookupKey code s.transfer_codes).isSome ∧
        (download_by_code s now code).2.transfer_codes
          = insertKey code r s.transfer_codes := by
  rcases hl : lookupKey code s.transfer_codes with _ | fi
  · left
    simp [download_by_code, hl]
  · by_cases hexp : now > fi.expires_at
    · left
      simp [download_by_code, hl, hexp]
    · rcases hd : lookupKey fi.file_path s.disk with _ | df
      · left
        simp [download_by_code, hl, hexp, hd]
      · right
        refine ⟨{ fi with downloaded := true }, by simp, ?_⟩
        simp [download_by_code, hl, hexp, hd]

theorem delete_codes_shape (s : FMState) (rf : String → Bool) (fid : String) :
    (delete_file s rf fid).2.transfer_codes = s.transfer_codes := by
  rcases hl : lookupKey fid s.file_registry with _ | fi
  · simp [delete_file, hl]
  · by_cases h1 : (lookupKey fi.path s.disk).isSome
    · by_cases h2 : rf fi.path
      · simp [delete_file, hl, h1, h2]
      · simp [delete_file, hl, h1, h2]
    · simp [delete_file, hl, h1]

theorem cleanup_codes (s : FMState) (now : Nat) (rf : String → Bool) :
    (cleanup_expired_files s now rf).transfer_codes = s.transfer_codes := by
  rw [cleanup_expired_files, orphan_pass_codes, foldl_cleanupStep_codes]

theorem reachable_codesInv {s : FMState} (h : Reachable s) :
    codesInv s.transfer_codes := by
  induction h with
  | init disk => exact ⟨List.nodup_nil, by simp [initFM]⟩
  | create hs hdraws hc ih =>
    obtain ⟨hg, tr, hcodes⟩ := create_codes_shape hc
    obtain ⟨hfresh, d, hd, hcd⟩ := genCode_some hg
    rw [hcodes]
    exact codesInv_insert_fresh ih hfresh ⟨d, (hdraws d hd).1, (hdraws d hd).2, hcd⟩
  | download now code hs ih =>
    rcases download_codes_shape _ now code with heq | ⟨r, hp, heq⟩
    · rw [heq]; exact ih
    · rw [heq]; exact codesInv_insert_present ih hp
  | cleanup now rf hs ih =>
    rw [cleanup_codes]; exact ih
  | delete rf fid hs ih =>
    rw [delete_codes_shape]; exact ih

theorem codesInv_mem_codeStrings {codes : List (String × TransferRecord)}
    (h : codesInv codes) : ∀ c ∈ codes.map Prod.fst, c ∈ codeStrings := by
  intro c hc
  obtain ⟨d, h1, h2, hc2⟩ := h.2 c hc
  rw [hc2]
  exact List.mem_map.2 ⟨d, List.mem_range'_1.2 ⟨h1, by omega⟩, rfl⟩

theorem codesInv_length_le {codes : List (String × TransferRecord)}
    (h : codesInv codes) : codes.length ≤ 9000 := by
  have hsub : codes.map Prod.fst ⊆ codeStrings :=
    fun c hc => codesInv_mem_codeStrings h c hc
  have h1 : (codes.map Prod.fst).toFinset.card = (codes.map Prod.fst).length :=
    List.toFinset_card_of_nodup h.1
  have h2 : (codes.map Prod.fst).toFinset ⊆ codeStrings.toFinset := by
    intro x hx
    rw [List.mem_toFinset] at hx ⊢
    exact hsub hx
  have h3 := Finset.card_le_card h2
  have h4 := List.toFinset_card_le (l := codeStrings)
  have h5 : codeStrings.length = 9000 := by
    rw [codeStrings, List.length_map, List.length_range']
  have h6 : (codes.map Prod.fst).length = codes.length := by simp
  omega

theorem codesInv_lookup_outside {codes : List (String × TransferRecord)}
    (h : codesInv codes) {c : String} (hc : c ∉ codeStrings) :
    lookupKey c codes = none := by
  rw [lookupKey_eq_none]
  exact fun hm => hc (codesInv_mem_codeStrings h c hm)

theorem lookup_fullCodes_isSome {d : Nat} (h1 : 1000 ≤ d) (h2 : d ≤ 9999) :
    (lookupKey (toString d) fullCodes).isSome := by
  rw [isSome_lookupKey]
  have hkeys : fullCodes.map Prod.fst = (List.range' 1000 9000).map toString := by
    rw [fullCodes, List.map_map]
    rfl
  rw [hkeys]
  exact List.mem_map.2 ⟨d, List.mem_range'_1.2 ⟨h1, by omega⟩, rfl⟩

theorem genCode_fullCodes_none :
    ∀ (draws : List Nat), (∀ d ∈ draws, 1000 ≤ d ∧ d ≤ 9999) →
      genCode fullCodes draws = none
  | [], _ => rfl
  | d :: ds, h => by
    have hd := h d (List.mem_cons_self d ds)
    rw [genCode, if_pos (lookup_fullCodes_isSome hd.1 hd.2)]
    exact genCode_fullCodes_none ds (fun e he => h e (List.mem_cons.2 (Or.inr he)))

/-! Claim theorems. -/

/-- C1: the claim says `create_transfer_code` terminates after a bounded
number of attempts, returning `CapacityExceeded` when every code is active.
The code instead loops forever: with every code of the `randint(1000, 9999)`
space active, no finite draw sequence ever leaves the `while True` loop and
no value (code or error) is ever returned — there is no capacity error in
the source at all. -/
theorem create_transfer_code_full_space_never_returns :
    ∀ (draws : List Nat), (∀ d ∈ draws, 1000 ≤ d ∧ d ≤ 9999) →
      genCode fullState.transfer_codes draws = none
      ∧ ∀ (now : Nat) (f : UploadedFile) (fid : String),
          create_transfer_code fullState now draws f fid = none := by
  intro draws h
  have hg : genCode fullState.transfer_codes draws = none := genCode_fullCodes_none draws h
  exact ⟨hg, fun now f fid => by simp [create_transfer_code, hg]⟩

theorem create_transfer_code_full_space_never_returns_witness :
    genCode fullState.transfer_codes [1000] = none :=
  (create_transfer_code_full_space_never_returns [1000] (by decide)).1

/-- C2: the claim says a created transfer stays downloadable until its
24-hour `expires_at` regardless of intervening cleanup sweeps. Counter-run:
a transfer created at t=0 downloads fine at t=1860s, but running
`cleanup_expired_files` at t=1860s (31 minutes, far before the 24-hour
expiry) destroys its bytes — the orphan pass removes any temp file not in
`file_registry` older than 30 minutes, and transfer files are never in
`file_registry` — so the same download then returns `None`. -/
theorem transfer_destroyed_by_sweep_before_expiry :
    create_transfer_code initState 0 [1234] c2File "f1" = some ("1234", c2State)
    ∧ (download_by_code c2State 1860 "1234").1 = some ([1, 2, 3], "a.pdf")
    ∧ 1860 ≤ c2Record.expires_at
    ∧ (download_by_code (cleanup_expired_files c2State 1860 (fun _ => false)) 1860 "1234").1
        = none := by
  refine ⟨?_, ?_, ?_, ?_⟩ <;> decide

/-- C3 counterexample: an entry whose `expires_at` (10) is long past at
time 100 is still returned by `get_file_info`, which takes no clock at all —
there is no lazy expiration check on reads. -/
theorem get_file_info_returns_expired_entry :
    100 > c3Record.expires_at ∧ get_file_info c3State "f1" = some c3Record := by
  decide

/-- C3 amended: `get_file_info` performs no expiration check — an entry past
its `expires_at` is returned unchanged at any read time — and the entry stops
being readable only once a cleanup sweep removes it. -/
theorem get_file_info_no_lazy_expiration {s : FMState} {fid : String} {r : StoredFile}
    {now : Nat} (rf : String → Bool)
    (hnd : (s.file_registry.map Prod.fst).Nodup)
    (hr : lookupKey fid s.file_registry = some r) (hexp : now > r.expires_at) :
    get_file_info s fid = some r
    ∧ get_file_info (cleanup_expired_files s now rf) fid = none := by
  exact ⟨hr, by rw [get_file_info_cleanup hnd hr, if_pos hexp]⟩

theorem get_file_info_no_lazy_expiration_witness :
    get_file_info c3State "f1" = some c3Record
    ∧ get_file_info (cleanup_expired_files c3State 100 (fun _ => false)) "f1" = none :=
  get_file_info_no_lazy_expiration (fun _ => false) (by decide) (by decide) (by decide)

/-- C4 counterexample: at time 200 code "1234" exists but is expired while
code "9999" was never issued, yet `download_by_code` produces the identical
`none` for both — the two failure modes are not distinguishable. -/
theorem download_by_code_failures_indistinguishable :
    lookupKey "9999" c4State.transfer_codes = none
    ∧ lookupKey "1234" c4State.transfer_codes = some c4Record
    ∧ 200 > c4Record.expires_at
    ∧ (download_by_code c4State 200 "1234").1 = (download_by_code c4State 200 "9999").1 := by
  decide

/-- C4 amended: `download_by_code` returns the same `None` for a code that
was never issued or purged and for a code whose record is past `expires_at`;
no distinct `Expired` result exists. -/
theorem download_by_code_none_on_unknown_or_expired (s : FMState) (now : Nat) (code : String) :
    (lookupKey code s.transfer_codes = none → (download_by_code s now code).1 = none)
    ∧ ∀ r : TransferRecord, lookupKey code s.transfer_codes = some r →
        now > r.expires_at → (download_by_code s now code).1 = none := by
  constructor
  · intro h
    simp [download_by_code, h]
  · intro r h hexp
    simp [download_by_code, h, hexp]

theorem download_by_code_none_on_unknown_or_expired_witness :
    (download_by_code c4State 200 "1234").1 = none :=
  (download_by_code_none_on_unknown_or_expired c4State 200 "1234").2 c4Record
    (by decide) (by decide)

/-- C5 counterexample: a file with `expires_at = 100` satisfies the claim's
removal condition `expiresAt <= now` at `now = 100`, yet the sweep keeps it:
the code removes only on strict `now > expires_at`, so the claimed count
(here N = 1) is not removed (and the Python method returns no count at all). -/
theorem cleanup_keeps_boundary_file :
    c5Record.expires_at ≤ 100
    ∧ get_file_info (cleanup_expired_files c5State 100 (fun _ => false)) "f1" = some c5Record := by
  decide

/-- C5 amended: `cleanup_expired_files` removes exactly the registry entries
with `expires_at` strictly before `now` (metadata always, bytes best-effort)
and returns no count; `get_file_info` on a removed or absent id yields `none`
and every entry with `expires_at ≥ now` survives unchanged. -/
theorem cleanup_expired_files_exact {s : FMState} {now : Nat} {rf : String → Bool}
    {fid : String} (hnd : (s.file_registry.map Prod.fst).Nodup) :
    (∀ r : StoredFile, lookupKey fid s.file_registry = some r →
        ((now > r.expires_at → get_file_info (cleanup_expired_files s now rf) fid = none)
          ∧ (r.expires_at ≥ now →
              get_file_info (cleanup_expired_files s now rf) fid = some r)))
    ∧ (lookupKey fid s.file_registry = none →
        get_file_info (cleanup_expired_files s now rf) fid = none) := by
  constructor
  · intro r hr
    constructor
    · intro hexp
      rw [get_file_info_cleanup hnd hr, if_pos hexp]
    · intro hge
      rw [get_file_info_cleanup hnd hr, if_neg (by omega)]
  · intro hr
    rw [get_file_info, cleanup_expired_registry, lookupKey_foldl_eraseKey]
    split
    · rfl
    · exact hr

theorem cleanup_expired_files_exact_witness :
    200 > c5Record.expires_at
    ∧ get_file_info (cleanup_expired_files c5State 200 (fun _ => false)) "f1" = none :=
  ⟨by decide, ((cleanup_expired_files_exact (by decide)).1 c5Record (by decide)).1 (by decide)⟩

/-- C6: in every reachable state no two active transfer records share a
code; the collision-retry loop only ever reserves a code absent from the
active map, and every operation preserves key distinctness. -/
theorem reachable_codes_unique {s : FMState} (h : Reachable s) :
    (s.transfer_codes.map Prod.fst).Nodup
    ∧ ∀ (draws : List Nat) (c : String),
        genCode s.transfer_codes draws = some c → lookupKey c s.transfer_codes = none := by
  have hinv := reachable_codesInv h
  exact ⟨hinv.1, fun draws c hg => (genCode_some hg).1⟩

theorem reachable_codes_unique_witness :
    (initState.transfer_codes.map Prod.fst).Nodup
    ∧ ∀ (draws : List Nat) (c : String),
        genCode initState.transfer_codes draws = some c →
          lookupKey c initState.transfer_codes = none :=
  reachable_codes_unique (Reachable.init [])

/-- C7: the claim says the Transfer Exchange has a sweep removing expired
records so codes can be reissued. The code has none: `cleanup_expired_files`
returns `transfer_codes` untouched in every state, and an expired record is
still returned by a lookup after the sweep — expired codes stay active
forever and are never freed for reissue. -/
theorem cleanup_never_removes_transfer_records (s : FMState) (now : Nat) (rf : String → Bool) :
    (cleanup_expired_files s now rf).transfer_codes = s.transfer_codes
    ∧ ∀ (code : String) (r : TransferRecord),
        lookupKey code s.transfer_codes = some r → now > r.expires_at →
          (get_file_by_code (cleanup_expired_files s now rf) code).1 = some r := by
  refine ⟨cleanup_codes s now rf, fun code r hr hexp => ?_⟩
  show lookupKey code (cleanup_expired_files s now rf).transfer_codes = some r
  rw [cleanup_codes]
  exact hr

theorem cleanup_never_removes_transfer_records_witness :
    (get_file_by_code (cleanup_expired_files c4State 200 (fun _ => false)) "1234").1
      = some c4Record :=
  (cleanup_never_removes_transfer_records c4State 200 (fun _ => false)).2 "1234" c4Record
    (by decide) (by decide)

/-- C8 counterexample: when physical deletion fails, `delete_file` returns
`False` with the registry entry retained and still pointing at the bytes —
the `os.remove` exception reaches the outer handler before
`del self.file_registry[file_id]` runs. -/
theorem delete_file_keeps_entry_on_failure :
    delete_file c8State (fun _ => true) "f1" = (false, c8State)
    ∧ get_file_info c8State "f1" = some c8Record := by
  decide

/-- C8 amended: a failing physical deletion makes `delete_file` abort with
`False` and keep the metadata entry; only `cleanup_expired_files` removes the
metadata of an expired entry despite the physical deletion failing. -/
theorem delete_file_failure_behaviour {s : FMState} {rf : String → Bool} {fid : String}
    {r : StoredFile} {now : Nat}
    (hnd : (s.file_registry.map Prod.fst).Nodup)
    (hr : lookupKey fid s.file_registry = some r)
    (hdisk : (lookupKey r.path s.disk).isSome = true)
    (hfail : rf r.path = true)
    (hexp : now > r.expires_at) :
    delete_file s rf fid = (false, s)
    ∧ get_file_info (cleanup_expired_files s now rf) fid = none := by
  constructor
  · simp [delete_file, hr, hdisk, hfail]
  · rw [get_file_info_cleanup hnd hr, if_pos hexp]

theorem delete_file_failure_behaviour_witness :
    delete_file c8State (fun _ => true) "f1" = (false, c8State)
    ∧ get_file_info (cleanup_expired_files c8State 100 (fun _ => true)) "f1" = none :=
  delete_file_failure_behaviour (r := c8Record) (by decide) (by decide) (by decide)
    (by decide) (by decide)

/-- C9: every active code of a reachable state is the decimal string of some
`randint(1000, 9999)` draw, so "0000"–"0999" are never issued, at most 9000
codes are simultaneously active, and looking up any string outside that space
returns `none`. -/
theorem reachable_codes_in_randint_space {s : FMState} (h : Reachable s) :
    (∀ c ∈ s.transfer_codes.map Prod.fst, c ∈ codeStrings)
    ∧ s.transfer_codes.length ≤ 9000
    ∧ ∀ c : String, c ∉ codeStrings → (get_file_by_code s c).1 = none := by
  have hinv := reachable_codesInv h
  refine ⟨codesInv_mem_codeStrings hinv, codesInv_length_le hinv, fun c hc => ?_⟩
  exact codesInv_lookup_outside hinv hc

theorem reachable_codes_in_randint_space_witness :
    (∀ c ∈ initState.transfer_codes.map Prod.fst, c ∈ codeStrings)
    ∧ initState.transfer_codes.length ≤ 9000
    ∧ ∀ c : String, c ∉ codeStrings → (get_file_by_code initState c).1 = none :=
  reachable_codes_in_randint_space (Reachable.init [])

/-- C10: `get_file_by_code` checks nothing and mutates nothing: a record
still in the map is returned in full even past its `expires_at`, an unknown
code yields `none`, and the state after the call equals the state before. -/
theorem get_file_by_code_pure (s : FMState) (code : String) :
    (get_file_by_code s code).2 = s
    ∧ (∀ r : TransferRecord, lookupKey code s.transfer_codes = some r →
        ∀ now : Nat, now > r.expires_at → (get_file_by_code s code).1 = some r)
    ∧ (lookupKey code s.transfer_codes = none → (get_file_by_code s code).1 = none) :=
  ⟨rfl, fun _ hr _ _ => hr, fun h => h⟩

theorem get_file_by_code_pure_witness :
    (get_file_by_code c4State "1234").2 = c4State
    ∧ (get_file_by_code c4State "1234").1 = some c4Record :=
  ⟨(get_file_by_code_pure c4State "1234").1,
    (get_file_by_code_pure c4State "1234").2.1 c4Record (by decide) 200 (by decide)⟩
